import Mathlib

/-!
Verification of the mwa-uvdata-pipeline core (configurators.py, processors.py,
utils.py) against its natural-language specification.

The Python code is shallowly embedded: paths are plain strings (we model path
strings without directory-normalization corner cases such as trailing slashes),
Python dicts are insertion-ordered association lists, Python exceptions are an
explicit `PyError` error type through `Except`, and the human-readable
validation messages are abstracted into the `Violation` inductive (the exact
message text joins Python `set`s whose iteration order is unspecified, so only
the identity of each message is modelled, not its rendered string).
-/

namespace MWA

/-- Exceptions that the modelled Python code can raise. -/
inductive Violation where
  /-- "No supported file types found. Supported types are: ..." -/
  | noSupportedTypes
  /-- "FITS files require metafits files to be present." -/
  | fitsRequireMetafits
  /-- "Metafits files are missing for some obsids." -/
  | metafitsMissingForObsids
  /-- "Unsupported file types found: ..." -/
  | unsupportedTypes (tags : List String)
  /-- "Cannot use both uvfits and uvh5 files." -/
  | uvfitsUvh5Conflict
  /-- "Cannot use both ms and uvfits/uvh5 files." -/
  | msConflict
  /-- "Cannot specify both sel_ants and skip_ants." -/
  | selSkipAntsConflict
  /-- "Validation failed for: <files>" (trailer appended when any check fired). -/
  | validationFailedFor (files : List String)
deriving DecidableEq, Repr

/-- Python exceptions raised by the modelled code. -/
inductive PyError where
  /-- ValueError("No input files specified") in `__post_init__`. -/
  | valueErrorNoInput
  /-- ValueError("Validation errors: ...") in `__post_init__`. -/
  | validationError (report : List Violation)
  /-- KeyError on a dict subscript. -/
  | keyError (key : String)
  /-- IndexError on a list subscript. -/
  | indexError
  /-- AttributeError (e.g. `obsid_groups` accessed before assignment). -/
  | attributeError
  /-- AssertionError (e.g. `assert size_in_gb > 0`). -/
  | assertionError
  /-- NameError: module-level `compute_optimal_batches` references `self` (utils.py:40). -/
  | nameError
  /-- ZeroDivisionError on `//` by zero. -/
  | zeroDivisionError
  /-- pyuvdata ValueError: requested times not present in the files being read. -/
  | valueErrorTimesNotPresent
  /-- ValueError: `range()` arg 3 must not be zero. -/
  | valueErrorRangeStep
deriving DecidableEq, Repr

/-- Index of the last occurrence of `c` in a character list, if any. -/
def lastIdxOf (c : Char) : List Char → Option Nat
  | [] => none
  | x :: xs =>
    match lastIdxOf c xs with
    | some i => some (i + 1)
    | none => if x = c then some 0 else none

/-- `pathlib.PurePath.name`: the final path component (model: text after the last slash). -/
def pyName (s : String) : String :=
  match lastIdxOf '/' s.data with
  | none => s
  | some i => String.mk (s.data.drop (i + 1))

/-- `pathlib.PurePath.suffix` of a final component `name`:
`name[i:]` for `i` the last dot index when `0 < i < len(name) - 1`, else `""`. -/
def pySuffixOfName (name : List Char) : String :=
  match lastIdxOf '.' name with
  | none => ""
  | some i => if 0 < i ∧ i + 1 < name.length then String.mk (name.drop i) else ""

/-- `Path(s).suffix`. -/
def pySuffix (s : String) : String := pySuffixOfName (pyName s).data

/-- `Path(s).suffix[1:]` — the extension tag used by `group_files_by_extension`. -/
def pyExt (s : String) : String := (pySuffix s).drop 1

/-- `Path(s).stem`: the final component without its suffix. -/
def pyStem (s : String) : String :=
  let name := (pyName s).data
  match lastIdxOf '.' name with
  | none => String.mk name
  | some i => if 0 < i ∧ i + 1 < name.length then String.mk (name.take i) else String.mk name

/-- `Path(s).stem.split('_')[0]` — the obsid tag used by `group_files_by_obsid_and_extension`. -/
def pyObsid (s : String) : String := String.mk ((pyStem s).data.takeWhile (fun c => c ≠ '_'))

/-- Code-point comparison of characters, as Python compares strings. -/
def charLt (a b : Char) : Bool := Nat.blt a.toNat b.toNat

/-- Lexicographic `≤` on character lists (Python string/Path comparison for
single-component relative paths). -/
def listLe : List Char → List Char → Bool
  | [], _ => true
  | _ :: _, [] => false
  | a :: as, b :: bs =>
    if charLt a b then true
    else if charLt b a then false
    else listLe as bs

/-- Python `<=` on strings (by code points). -/
def strLe (a b : String) : Bool := listLe a.data b.data

/-- Insert into a list keeping `strLe`-order; places the new element before
equal elements, which together with `sortStr`'s recursion makes the sort stable,
like Python's `sorted`. -/
def insertSorted (f : String) : List String → List String
  | [] => [f]
  | g :: gs => if strLe f g then f :: g :: gs else g :: insertSorted f gs

/-- Stable sort by `strLe`, modelling Python's `sorted` on paths. -/
def sortStr : List String → List String
  | [] => []
  | f :: fs => insertSorted f (sortStr fs)

/-- Adjacent-pairs sortedness check for `strLe`. -/
def isSortedStr : List String → Bool
  | [] => true
  | [_] => true
  | a :: b :: rest => strLe a b && isSortedStr (b :: rest)

/-- `d[k].append(v)` on a `defaultdict(list)` modelled as an insertion-ordered
association list: appends `v` to the bucket of `k`, creating the bucket at the
end when `k` is absent. -/
def addToGroup (d : List (String × List String)) (k v : String) :
    List (String × List String) :=
  match d with
  | [] => [(k, [v])]
  | (k₁, vs) :: rest =>
    if k₁ = k then (k₁, vs ++ [v]) :: rest else (k₁, vs) :: addToGroup rest k v

/-- Python `k in d` for the association-list dict model. -/
def containsKey {α : Type} (d : List (String × α)) (k : String) : Bool :=
  d.any (fun kv => kv.1 = k)

/-- Python `d[k]` (as an `Option`; `none` is a KeyError site). -/
def lookupDict {α : Type} (d : List (String × α)) (k : String) : Option α :=
  (d.find? (fun kv => kv.1 = k)).map (fun kv => kv.2)

/-- `UVDataFileSet.group_files_by_extension` (configurators.py:227-235):
buckets every file by `Path(file).suffix[1:]` into a `defaultdict(list)`
preserving first-seen key order, then sorts each bucket. -/
def group_files_by_extension (file_list : List String) :
    List (String × List String) :=
  (file_list.foldl (fun d f => addToGroup d (pyExt f) f) []).map
    (fun kv => (kv.1, sortStr kv.2))

/-- Inner step of `group_files_by_obsid_and_extension`: two-level dict append. -/
def addToGroup2 (d : List (String × List (String × List String)))
    (obsid ext v : String) : List (String × List (String × List String)) :=
  match d with
  | [] => [(obsid, [(ext, [v])])]
  | (o, fg) :: rest =>
    if o = obsid then (o, addToGroup fg ext v) :: rest
    else (o, fg) :: addToGroup2 rest obsid ext v

/-- `UVDataFileSet.group_files_by_obsid_and_extension` (configurators.py:237-248). -/
def group_files_by_obsid_and_extension (file_list : List String) :
    List (String × List (String × List String)) :=
  (file_list.foldl (fun d f => addToGroup2 d (pyObsid f) (pyExt f) f) []).map
    (fun og => (og.1, og.2.map (fun kv => (kv.1, sortStr kv.2))))

/-- `UVDataFileSet.supported_types` (configurators.py:43-48). Modelled as a
list; the validator only tests membership / existential facts over it, which
are independent of Python's set iteration order. -/
def supported_types : List String :=
  ["fits", "metafits", "ms", "uvfits", "uvf", "uvh5"]

/-- The fields of `UVDataFileSet` the validated behaviour depends on. The many
plotting/SSINS options are omitted: `validate` reads only the input file list
and the two antenna selection lists, and the derived `file_groups` /
`obsid_groups` are recomputed functionally from `files`. -/
structure UVDataFileSet where
  files : List String
  sel_ants : List String := []
  skip_ants : List String := []
deriving DecidableEq, Repr

/-- `self.file_groups`, as assigned in `__post_init__` (configurators.py:104). -/
def fileGroups (fs : UVDataFileSet) : List (String × List String) :=
  group_files_by_extension fs.files

/-- The metaclass-generated `has_<type>` property: `file_type in self.file_groups`. -/
def hasType (fs : UVDataFileSet) (t : String) : Bool :=
  containsKey (fileGroups fs) t

/-- `self.obsid_groups`: assigned in `__post_init__` only when fits files are
present (configurators.py:115-116); `none` models the attribute being unset. -/
def obsidGroups (fs : UVDataFileSet) :
    Option (List (String × List (String × List String))) :=
  if hasType fs "fits" then some (group_files_by_obsid_and_extension fs.files)
  else none

/-- `UVDataFileSet._has_metafits_for_obs_id` (configurators.py:250-256):
true iff every obsid sub-dict contains a "metafits" key (and is non-empty —
the source also tests `len(file_group) == 0`, which is redundant but kept). -/
def hasMetafitsForObsId
    (obsid_group : List (String × List (String × List String))) : Bool :=
  obsid_group.all (fun og => containsKey og.2 "metafits" && !(og.2.length = 0))

/-- Keys of `file_groups` that are not in `supported_types`
(`set(self.file_groups.keys()) - set(self.supported_types)`, modelled in key
insertion order since Python's set order is unspecified). -/
def unsupportedOf (fs : UVDataFileSet) : List String :=
  ((fileGroups fs).map Prod.fst).filter (fun k => !supported_types.contains k)

/-- The `errors` list built by `UVDataFileSet.validate` (configurators.py:145-181)
before the trailer append: the six checks in source order. The per-observation
completeness check is an `elif` of the metadata-requirement check in the
source (configurators.py:153-162), which this definition mirrors. -/
def validateCore (fs : UVDataFileSet) : List Violation :=
  (if supported_types.any (fun t => hasType fs t) then []
   else [Violation.noSupportedTypes]) ++
  (if hasType fs "fits" && !(hasType fs "metafits") then
     [Violation.fitsRequireMetafits]
   else if hasType fs "fits" && (obsidGroups fs).isSome
        && !(hasMetafitsForObsId ((obsidGroups fs).getD [])) then
     [Violation.metafitsMissingForObsids]
   else []) ++
  (if unsupportedOf fs = [] then []
   else [Violation.unsupportedTypes (unsupportedOf fs)]) ++
  (if hasType fs "uvfits" && hasType fs "uvh5" then
     [Violation.uvfitsUvh5Conflict]
   else []) ++
  (if hasType fs "ms" && (hasType fs "uvh5" || hasType fs "uvfits") then
     [Violation.msConflict]
   else []) ++
  (if !fs.sel_ants.isEmpty && !fs.skip_ants.isEmpty then
     [Violation.selSkipAntsConflict]
   else [])

/-- `UVDataFileSet.validate` (configurators.py:136-185): the six checks, then
`if errors: errors.append("Validation failed for: ...")`. -/
def validate (fs : UVDataFileSet) : List Violation :=
  if validateCore fs = [] then []
  else validateCore fs ++ [Violation.validationFailedFor fs.files]

/-- `UVDataFileSet.__post_init__` (configurators.py:99-121): rejects an empty
input list, classifies, validates, and raises `ValueError` with the whole
joined report when validation produced any message. The suffix bookkeeping
(configurators.py:125-134) touches none of the modelled state. -/
def mkUVDataFileSet (files sel_ants skip_ants : List String) :
    Except PyError UVDataFileSet :=
  if files.isEmpty then Except.error PyError.valueErrorNoInput
  else
    let fs : UVDataFileSet := ⟨files, sel_ants, skip_ants⟩
    match validate fs with
    | [] => Except.ok fs
    | errs => Except.error (PyError.validationError errs)

/-- Eager transcription of the generator body of `UVDataFileSet.observations`
(configurators.py:273-276): per obsid, `file_group["metafits"][0].stem` and
`file_group["fits"]`; a missing dict key is a KeyError, raised at the point the
iteration reaches that obsid. -/
def observationsAux :
    List (String × List (String × List String)) →
    Except PyError (List (String × String × List String))
  | [] => Except.ok []
  | (obsid, fg) :: rest =>
    match lookupDict fg "metafits" with
    | none => Except.error (PyError.keyError "metafits")
    | some [] => Except.error PyError.indexError
    | some (m :: _) =>
      match lookupDict fg "fits" with
      | none => Except.error (PyError.keyError "fits")
      | some fits =>
        match observationsAux rest with
        | Except.error e => Except.error e
        | Except.ok tl => Except.ok ((obsid, pyStem m, fits) :: tl)

/-- `UVDataFileSet.observations` (configurators.py:270-276); iterating the
generator to exhaustion. When `obsid_groups` was never assigned the attribute
access fails (modelled as the AttributeError branch). -/
def observations (fs : UVDataFileSet) :
    Except PyError (List (String × String × List String)) :=
  match obsidGroups fs with
  | none => Except.error PyError.attributeError
  | some og => observationsAux og

/-- Which control path `FITSProcessor.read` takes. -/
inductive ReadPath where
  /-- `len(fits_files) == 1` branch: direct `_batched_read` with `metafits_files[0]`. -/
  | fastPath (metafits : String) (fits : List String)
  /-- The per-observation loop over `file_set.observations()`. -/
  | perObs (obs : List (String × String × List String))
deriving DecidableEq, Repr

/-- The path selection of `FITSProcessor.read` (processors.py:195-226):
`file_set.fits` and `file_set.metafits` are dict subscripts through the
metaclass properties (KeyError when absent); the fast path is taken exactly on
`len(fits_files) == 1` and uses `metafits_files[0]`; otherwise the code loops
over `file_set.observations()`. Dynamic step sizing is an external probe
(host memory and disk sizes) and does not affect the path decision. -/
def readPlan (fs : UVDataFileSet) : Except PyError ReadPath :=
  match lookupDict (fileGroups fs) "fits" with
  | none => Except.error (PyError.keyError "fits")
  | some fits_files =>
    match lookupDict (fileGroups fs) "metafits" with
    | none => Except.error (PyError.keyError "metafits")
    | some metafits_files =>
      if fits_files.length = 1 then
        match metafits_files with
        | [] => Except.error PyError.indexError
        | m :: _ => Except.ok (ReadPath.fastPath m fits_files)
      else
        match observations fs with
        | Except.error e => Except.error e
        | Except.ok obs => Except.ok (ReadPath.perObs obs)

/-- `compute_optimal_batches` (utils.py:20-47). Sizes are the source's `int`s
(non-negative here; the assert rejects 0). The `avail_mem_gb is None` branch
executes `self._obtain_system_memory_in_gb()` in a module-level function where
`self` is undefined, a NameError (utils.py:40). The division is Python floor
division `//`; dividing by zero is a ZeroDivisionError. -/
def compute_optimal_batches (size_in_gb leakage_factor : Nat)
    (avail_mem_gb : Option Nat) : Except PyError Nat :=
  if size_in_gb = 0 then Except.error PyError.assertionError
  else
    match avail_mem_gb with
    | none => Except.error PyError.nameError
    | some avail =>
      let predicted_max_memory_gb := size_in_gb * leakage_factor
      if predicted_max_memory_gb < avail then Except.ok 1
      else if avail = 0 then Except.error PyError.zeroDivisionError
      else Except.ok (predicted_max_memory_gb / avail * 2)

/-- The accumulator: `pyuvdata.UVData` reduced to its time axis, the only state
the batching logic reads or extends. -/
structure UVData where
  time_array : List Nat
deriving DecidableEq, Repr

/-- Sorted-unique insertion, building `np.unique`. -/
def insertUniqNat (n : Nat) : List Nat → List Nat
  | [] => [n]
  | m :: ms =>
    if n < m then n :: m :: ms
    else if n = m then m :: ms
    else m :: insertUniqNat n ms

/-- `np.unique`: sorted deduplicated values. -/
def npUnique (l : List Nat) : List Nat := l.foldr insertUniqNat []

/-- `range(0, n, step)` for `step > 0`. -/
def sliceStarts (n step : Nat) : List Nat :=
  (List.range ((n + step - 1) / step)).map (fun j => j * step)

/-- `type(uvd).from_file([metafits, *fits_files], read_data=True, times=ts)`:
the external reader returns a fragment carrying the requested times; requesting
a time that the files do not contain raises a ValueError in pyuvdata. `avail`
is the set of times actually present in the observation's files. -/
def from_file (avail : List Nat) (ts : List Nat) : Except PyError (List Nat) :=
  if ts.all (fun t => avail.contains t) then Except.ok ts
  else Except.error PyError.valueErrorTimesNotPresent

/-- The `for i in range(...)` loop of `_batched_read`: perform each slice read
in order, merging `uvd += fragment` (time-axis concatenation); returns the
trace of slice-read time lists actually issued, and the outcome (the loop stops
at the first raised error). -/
def runSliceReads (avail : List Nat) :
    List (List Nat) → UVData → List (List Nat) × Except PyError UVData
  | [], uvd => ([], Except.ok uvd)
  | ts :: rest, uvd =>
    match from_file avail ts with
    | Except.error e => ([ts], Except.error e)
    | Except.ok frag =>
      let r := runSliceReads avail rest ⟨uvd.time_array ++ frag⟩
      (ts :: r.1, r.2)

/-- `FITSProcessor._batched_read` (processors.py:183-194). The source creates
`uvd_`, fills it with a metadata-only read of `[metafits, *fits_files]` (that
read would discover `avail`) and deletes it — but then computes
`possible_times = np.unique(uvd.time_array)` from the accumulator `uvd`
(processors.py:188), not from `uvd_`, so `avail` never feeds the slicing.
`range(0, n, step_size)` raises ValueError when `step_size == 0`. Returns the
issued slice reads and the outcome. -/
def batched_read (uvd : UVData) (avail : List Nat) (step_size : Nat) :
    List (List Nat) × Except PyError UVData :=
  if step_size = 0 then ([], Except.error PyError.valueErrorRangeStep)
  else
    let possible_times := npUnique uvd.time_array
    let slices := (sliceStarts possible_times.length step_size).map
      (fun i => (possible_times.drop i).take step_size)
    runSliceReads avail slices uvd

/-! ## Helper lemmas about the grouping dictionaries -/

theorem containsKey_iff_mem_keys {α : Type} (d : List (String × α)) (k : String) :
    containsKey d k = true ↔ k ∈ d.map Prod.fst := by
  simp [containsKey, List.any_eq_true, List.mem_map]

theorem containsKey_addToGroup (d : List (String × List String)) (k v k₂ : String) :
    containsKey (addToGroup d k v) k₂ = (containsKey d k₂ || decide (k = k₂)) := by
  induction d with
  | nil => simp [addToGroup, containsKey]
  | cons kv rest ih =>
    obtain ⟨k₁, vs⟩ := kv
    by_cases h : k₁ = k
    · subst h
      cases h1 : (decide (k₁ = k₂)) <;>
        simp [addToGroup, containsKey, h1]
    · have ih2 := ih
      simp only [containsKey] at ih2
      cases h1 : (decide (k₁ = k₂)) <;>
        simp [addToGroup, containsKey, h, h1, ih2]

theorem containsKey_groupFold (fl : List String) (d : List (String × List String))
    (k : String) :
    containsKey (fl.foldl (fun d f => addToGroup d (pyExt f) f) d) k = true
    ↔ containsKey d k = true ∨ ∃ f ∈ fl, pyExt f = k := by
  induction fl generalizing d with
  | nil => simp
  | cons f fs ih =>
    rw [List.foldl_cons, ih, containsKey_addToGroup]
    simp only [Bool.or_eq_true, decide_eq_true_eq, List.mem_cons]
    constructor
    · rintro (⟨h | h⟩ | ⟨g, hg, he⟩)
      · exact Or.inl h
      · exact Or.inr ⟨f, Or.inl rfl, h⟩
      · exact Or.inr ⟨g, Or.inr hg, he⟩
    · rintro (h | ⟨g, (rfl | hg), he⟩)
      · exact Or.inl (Or.inl h)
      · exact Or.inl (Or.inr he)
      · exact Or.inr ⟨g, hg, he⟩

theorem containsKey_mapSort (G : List (String × List String)) (k : String) :
    containsKey (G.map (fun kv => (kv.1, sortStr kv.2))) k = containsKey G k := by
  unfold containsKey
  rw [List.any_map]
  rfl

/-- The extension tags present in a classified file set are exactly the
extensions of its input files. -/
theorem hasType_iff_exists (files sel skip : List String) (t : String) :
    hasType ⟨files, sel, skip⟩ t = true ↔ ∃ f ∈ files, pyExt f = t := by
  unfold hasType fileGroups group_files_by_extension
  rw [containsKey_mapSort, containsKey_groupFold]
  simp [containsKey]

/-! ## Claim theorems -/

/-- C1: the spec says accumulation discovers the observation's timestamp axis
via the metadata-only pass and issues ceil(n/step) slice reads covering it; for
timestamps 0..99 and step 25 it should issue the four reads
[0:25],[25:50],[50:75],[75:100]. The code instead slices
np.unique(uvd.time_array) — the accumulator — so with an empty accumulator it
issues no slice read at all, whatever timestamps the observation's files offer,
and in particular zero (not four) reads for the 0..99 observation. -/
theorem batched_read_ignores_discovery (avail : List Nat) (step : Nat) :
    (batched_read ⟨[]⟩ avail step).1 = []
    ∧ batched_read ⟨[]⟩ (List.range 100) 25 = ([], Except.ok ⟨[]⟩) := by
  constructor
  · by_cases h : step = 0
    · simp [batched_read, h]
    · have h0 : (step - 1) / step = 0 := Nat.div_eq_of_lt (by omega)
      simp [batched_read, h, npUnique, sliceStarts, h0, runSliceReads]
  · rfl

/-- C1 witness: the universally quantified part instantiated at the claim's
own concrete observation. -/
theorem batched_read_ignores_discovery_witness :
    (batched_read ⟨[]⟩ (List.range 100) 25).1 = [] :=
  (batched_read_ignores_discovery (List.range 100) 25).1

/-- C8: the spec says an observation whose discovery pass yields zero
timestamps is a no-op for any accumulator state. Because the code slices the
accumulator's own time axis instead of the discovered one, an accumulator
already holding time 5 makes the code issue a slice read requesting time 5
from an observation that has no timestamps at all, which raises inside the
reader — neither a no-op nor error-free. -/
theorem batched_read_empty_obs_not_noop :
    batched_read ⟨[5]⟩ [] 1
      = ([[5]], Except.error PyError.valueErrorTimesNotPresent) := rfl

/-- C2 counterexample: the claim's formula `ceil((size*leakage)/avail) * 2`
predicts 6 at size 3, leakage 7, avail 10 (ceil(21/10) = 3), but
`compute_optimal_batches` floor-divides and returns 4. -/
theorem compute_optimal_batches_floor_cex :
    compute_optimal_batches 3 7 (some 10) = Except.ok 4
    ∧ (3 * 7 + 10 - 1) / 10 * 2 = 6 ∧ (4 : Nat) ≠ 6 := by
  refine ⟨rfl, rfl, by decide⟩

/-- C2 (amended): with a positive size and a positive memory ceiling, the
planner returns 1 when size*leakage is strictly under the ceiling, and
otherwise floor(size*leakage / ceiling) * 2, where the quotient is the
floor-division characterized by the two bounds below. -/
theorem compute_optimal_batches_amended (s l a : Nat) (hs : 0 < s) (ha : 0 < a) :
    (s * l < a → compute_optimal_batches s l (some a) = Except.ok 1)
    ∧ (a ≤ s * l →
        compute_optimal_batches s l (some a) = Except.ok (s * l / a * 2)
        ∧ a * (s * l / a) ≤ s * l
        ∧ s * l < a * (s * l / a + 1)) := by
  have hs0 : s ≠ 0 := Nat.pos_iff_ne_zero.mp hs
  have ha0 : a ≠ 0 := Nat.pos_iff_ne_zero.mp ha
  constructor
  · intro h
    simp [compute_optimal_batches, hs0, h]
  · intro h
    have h1 : ¬ (s * l < a) := not_lt.mpr h
    have hdm := Nat.div_add_mod (s * l) a
    have hmod := Nat.mod_lt (s * l) ha
    refine ⟨by simp [compute_optimal_batches, hs0, h1, ha0], ?_, ?_⟩
    · calc a * (s * l / a) ≤ a * (s * l / a) + s * l % a := Nat.le_add_right _ _
        _ = s * l := hdm
    · calc s * l = a * (s * l / a) + s * l % a := hdm.symm
        _ < a * (s * l / a) + a := Nat.add_lt_add_left hmod _
        _ = a * (s * l / a + 1) := by ring

/-- C2 witness: the spec's own example, `plan(10, 7, 10) = 14`. -/
theorem compute_optimal_batches_amended_witness :
    compute_optimal_batches 10 7 (some 10) = Except.ok 14 :=
  ((compute_optimal_batches_amended 10 7 10 (by decide) (by decide)).2
    (by decide)).1

/-- C3: the claim (and the function's own docstring) says that calling the
planner with no memory ceiling queries the host's total memory and succeeds.
The module-level `compute_optimal_batches` instead executes
`self._obtain_system_memory_in_gb()` (utils.py:40) where `self` is undefined,
so every such call raises NameError. -/
theorem compute_optimal_batches_none_raises (s l : Nat) (hs : 0 < s) :
    compute_optimal_batches s l none = Except.error PyError.nameError := by
  simp [compute_optimal_batches, Nat.pos_iff_ne_zero.mp hs]

/-- C3 witness: the NameError at the concrete call `plan(1, 7, None)`. -/
theorem compute_optimal_batches_none_raises_witness :
    (0 : Nat) < 1
    ∧ compute_optimal_batches 1 7 none = Except.error PyError.nameError :=
  ⟨by decide, compute_optimal_batches_none_raises 1 7 (by decide)⟩

/-- C4 counterexample: for raw-data files with no metadata file at all
(a file set of one fits file), `validate` reports only the
metadata-requirement message plus the trailer — the per-observation
completeness check is an `elif` and does not run, and the trailer is an extra
message beyond the six checks' union, contradicting the claim on both counts. -/
theorem validate_skips_obsid_check_cex :
    validate ⟨["1000_ch1.fits"], [], []⟩
      = [Violation.fitsRequireMetafits,
         Violation.validationFailedFor ["1000_ch1.fits"]]
    ∧ Violation.metafitsMissingForObsids ∉ validate ⟨["1000_ch1.fits"], [], []⟩ := by
  exact ⟨rfl, by decide⟩

/-- C5 counterexample: a file set whose whole contents are a single
observation's raw-data group (two fits files) paired with its single metafits
file is validly constructed and, per the claim, should take the fast path; the
code tests `len(fits_files) == 1` and sends it through the per-observation
iteration layer instead. -/
theorem readPlan_single_obs_not_fast_cex :
    mkUVDataFileSet ["1000_ch1.fits", "1000_ch2.fits", "1000.metafits"] [] []
      = Except.ok ⟨["1000_ch1.fits", "1000_ch2.fits", "1000.metafits"], [], []⟩
    ∧ obsidGroups ⟨["1000_ch1.fits", "1000_ch2.fits", "1000.metafits"], [], []⟩
      = some [("1000", [("fits", ["1000_ch1.fits", "1000_ch2.fits"]),
                        ("metafits", ["1000.metafits"])])]
    ∧ readPlan ⟨["1000_ch1.fits", "1000_ch2.fits", "1000.metafits"], [], []⟩
      = Except.ok (ReadPath.perObs
          [("1000", "1000", ["1000_ch1.fits", "1000_ch2.fits"])]) := by
  exact ⟨rfl, rfl, rfl⟩

/-- C6 counterexample: a duplicated input path is kept twice in its bucket —
`group_files_by_extension` never deduplicates, contradicting the claim's
"appears at most once in its bucket". -/
theorem group_files_duplicate_cex :
    group_files_by_extension ["a.fits", "a.fits"]
      = [("fits", ["a.fits", "a.fits"])]
    ∧ List.count "a.fits" ["a.fits", "a.fits"] = 2 := by
  exact ⟨rfl, rfl⟩

/-- C9: a validly constructed file set (one fits observation plus a stray
metafits file whose obsid matches no fits file) passes every validation check,
yet iterating `observations()` reaches the fits-less obsid group and raises
KeyError on the missing "fits" key. -/
theorem observations_missing_fits_raises :
    mkUVDataFileSet ["1000_ch1.fits", "1000.metafits", "2000.metafits"] [] []
      = Except.ok ⟨["1000_ch1.fits", "1000.metafits", "2000.metafits"], [], []⟩
    ∧ obsidGroups ⟨["1000_ch1.fits", "1000.metafits", "2000.metafits"], [], []⟩
      = some [("1000", [("fits", ["1000_ch1.fits"]),
                        ("metafits", ["1000.metafits"])]),
              ("2000", [("metafits", ["2000.metafits"])])]
    ∧ observations ⟨["1000_ch1.fits", "1000.metafits", "2000.metafits"], [], []⟩
      = Except.error (PyError.keyError "fits") := by
  exact ⟨rfl, rfl, rfl⟩

/-- C7: whenever the classified groups contain fits files but no metafits
file, construction raises `ValueError` carrying the full validation report —
which contains the metadata-requirement violation — and no file-set value is
produced. -/
theorem mk_fits_without_metafits_fails (files sel_ants skip_ants : List String)
    (hf : hasType ⟨files, sel_ants, skip_ants⟩ "fits" = true)
    (hm : hasType ⟨files, sel_ants, skip_ants⟩ "metafits" = false) :
    ∃ report,
      mkUVDataFileSet files sel_ants skip_ants
        = Except.error (PyError.validationError report)
      ∧ Violation.fitsRequireMetafits ∈ report := by
  have hmem : Violation.fitsRequireMetafits
      ∈ validateCore ⟨files, sel_ants, skip_ants⟩ := by
    simp [validateCore, hf, hm]
  have hne : validateCore ⟨files, sel_ants, skip_ants⟩ ≠ [] :=
    List.ne_nil_of_mem hmem
  have hv : validate ⟨files, sel_ants, skip_ants⟩
      = validateCore ⟨files, sel_ants, skip_ants⟩
        ++ [Violation.validationFailedFor files] := by
    simp [validate, hne]
  have hfiles : files.isEmpty = false := by
    cases hfl : files with
    | nil =>
      rw [hfl] at hf
      simp [hasType, fileGroups, group_files_by_extension, containsKey] at hf
    | cons a l => simp
  refine ⟨validate ⟨files, sel_ants, skip_ants⟩, ?_, ?_⟩
  · unfold mkUVDataFileSet
    rw [hfiles]
    simp only [Bool.false_eq_true, if_false]
    cases hval : validate ⟨files, sel_ants, skip_ants⟩ with
    | nil => rw [hv] at hval; exact absurd hval (by simp)
    | cons a tl => simp [← hval]
  · rw [hv]
    exact List.mem_append_left _ hmem

/-- C7 witness: the concrete input list ["a.fits"]. -/
theorem mk_fits_without_metafits_fails_witness :
    hasType ⟨["a.fits"], [], []⟩ "fits" = true
    ∧ hasType ⟨["a.fits"], [], []⟩ "metafits" = false
    ∧ ∃ report,
        mkUVDataFileSet ["a.fits"] [] []
          = Except.error (PyError.validationError report)
        ∧ Violation.fitsRequireMetafits ∈ report :=
  ⟨by decide, by decide,
    mk_fits_without_metafits_fails ["a.fits"] [] [] (by decide) (by decide)⟩

/-- C5 (amended): with fits and metafits groups present (the metafits group
non-empty), `FITSProcessor.read` takes the direct fast path exactly when the
file set contains exactly one fits file in total — regardless of how many
observations or metafits files there are — and otherwise goes through the
per-observation iteration layer. -/
theorem readPlan_fast_iff_single_fits (fs : UVDataFileSet)
    (fitsL metaL : List String)
    (hf : lookupDict (fileGroups fs) "fits" = some fitsL)
    (hm : lookupDict (fileGroups fs) "metafits" = some metaL)
    (hmne : metaL ≠ []) :
    ((∃ m l, readPlan fs = Except.ok (ReadPath.fastPath m l))
      ↔ fitsL.length = 1)
    ∧ (fitsL.length ≠ 1 → ∀ obs, observations fs = Except.ok obs →
        readPlan fs = Except.ok (ReadPath.perObs obs)) := by
  constructor
  · by_cases hlen : fitsL.length = 1
    · refine ⟨fun _ => hlen, fun _ => ?_⟩
      cases metaL with
      | nil => exact absurd rfl hmne
      | cons m rest =>
        exact ⟨m, fitsL, by simp [readPlan, hf, hm, hlen]⟩
    · refine ⟨fun h => ?_, fun h => absurd h hlen⟩
      obtain ⟨m, l, heq⟩ := h
      rw [readPlan, hf, hm] at heq
      simp only [hlen, if_false] at heq
      cases hobs : observations fs with
      | error e => rw [hobs] at heq; exact absurd heq (by simp)
      | ok obs => rw [hobs] at heq; exact absurd heq (by simp)
  · intro hlen obs hobs
    rw [readPlan, hf, hm]
    simp [hlen, hobs]

/-- C5 witness: a one-fits-file set takes the fast path. -/
theorem readPlan_fast_iff_single_fits_witness :
    ∃ m l, readPlan ⟨["a_x.fits", "a.metafits"], [], []⟩
      = Except.ok (ReadPath.fastPath m l) :=
  (readPlan_fast_iff_single_fits ⟨["a_x.fits", "a.metafits"], [], []⟩
    ["a_x.fits"] ["a.metafits"] (by decide) (by decide) (by decide)).1.mpr rfl

/-- C10: the mutual-exclusion checks test only the literal tags "uvfits",
"uvh5" and "ms"; a file set whose files all carry the "uvf" alias extension
and/or "uvh5" validates with no message at all — in particular no
mutual-exclusion message — and construction succeeds. -/
theorem uvf_uvh5_accepted (files : List String) (hne : files ≠ [])
    (hext : ∀ f ∈ files, pyExt f = "uvf" ∨ pyExt f = "uvh5") :
    validate ⟨files, [], []⟩ = []
    ∧ Violation.uvfitsUvh5Conflict ∉ validate ⟨files, [], []⟩
    ∧ Violation.msConflict ∉ validate ⟨files, [], []⟩
    ∧ mkUVDataFileSet files [] [] = Except.ok ⟨files, [], []⟩ := by
  have hno : ∀ t : String, t ≠ "uvf" → t ≠ "uvh5" →
      hasType ⟨files, [], []⟩ t = false := by
    intro t h1 h2
    rw [← Bool.not_eq_true, hasType_iff_exists]
    rintro ⟨f, hf, he⟩
    rcases hext f hf with h | h <;> simp_all
  have hany : supported_types.any (fun t => hasType ⟨files, [], []⟩ t) = true := by
    obtain ⟨f, hf⟩ := List.exists_mem_of_ne_nil files hne
    rcases hext f hf with h | h
    · exact List.any_eq_true.mpr
        ⟨"uvf", by simp [supported_types],
         (hasType_iff_exists _ _ _ _).mpr ⟨f, hf, h⟩⟩
    · exact List.any_eq_true.mpr
        ⟨"uvh5", by simp [supported_types],
         (hasType_iff_exists _ _ _ _).mpr ⟨f, hf, h⟩⟩
  have hunsup : unsupportedOf ⟨files, [], []⟩ = [] := by
    rw [unsupportedOf, List.filter_eq_nil_iff]
    intro k hk
    obtain ⟨f, hf, he⟩ := (hasType_iff_exists files [] [] k).mp
      ((containsKey_iff_mem_keys _ _).mpr hk)
    rcases hext f hf with h | h <;>
      · rw [he] at h
        simp [h, supported_types]
  have hfits := hno "fits" (by decide) (by decide)
  have huvfits := hno "uvfits" (by decide) (by decide)
  have hms := hno "ms" (by decide) (by decide)
  have hcore : validateCore ⟨files, [], []⟩ = [] := by
    simp [validateCore, hany, hfits, huvfits, hms, hunsup]
  have hval : validate ⟨files, [], []⟩ = [] := by simp [validate, hcore]
  have hfe : files.isEmpty = false := by
    cases files with
    | nil => exact absurd rfl hne
    | cons a l => rfl
  exact ⟨hval, by simp [hval], by simp [hval],
    by simp [mkUVDataFileSet, hfe, hval]⟩

/-- C10 witness: the concrete pair of a .uvf and a .uvh5 file. -/
theorem uvf_uvh5_accepted_witness :
    validate ⟨["a.uvf", "b.uvh5"], [], []⟩ = []
    ∧ Violation.uvfitsUvh5Conflict ∉ validate ⟨["a.uvf", "b.uvh5"], [], []⟩
    ∧ Violation.msConflict ∉ validate ⟨["a.uvf", "b.uvh5"], [], []⟩
    ∧ mkUVDataFileSet ["a.uvf", "b.uvh5"] [] []
      = Except.ok ⟨["a.uvf", "b.uvh5"], [], []⟩ :=
  uvf_uvh5_accepted ["a.uvf", "b.uvh5"] (by decide) (by decide)

theorem mem_ite_singleton {c : Prop} [Decidable c] {v w : Violation} :
    v ∈ (if c then [w] else []) ↔ c ∧ v = w := by
  split <;> simp_all

theorem mem_ite_singleton_inv {c : Prop} [Decidable c] {v w : Violation} :
    v ∈ (if c then [] else [w]) ↔ ¬c ∧ v = w := by
  split <;> simp_all

theorem mem_ite_ite_singleton {A B : Prop} [Decidable A] [Decidable B]
    {v w₂ w₃ : Violation} :
    v ∈ (if A then [w₂] else if B then [w₃] else [])
    ↔ (A ∧ v = w₂) ∨ (¬A ∧ B ∧ v = w₃) := by
  split_ifs <;> simp_all

theorem mem_validate_of_not_trailer {fs : UVDataFileSet} {v : Violation}
    (hv : ∀ l, v ≠ Violation.validationFailedFor l) :
    v ∈ validate fs ↔ v ∈ validateCore fs := by
  unfold validate
  split
  · rename_i h
    simp [h]
  · simp [List.mem_append, hv]

/-- C4 (amended): five of the six checks run unconditionally and
independently, each contributing its message exactly when its condition holds;
the per-observation completeness check, however, is an `elif` of the
metadata-requirement check, so its message appears only when metadata is
present (so the metadata-requirement check did not fire) yet some obsid lacks
a metafits entry. The report lists the triggered messages in check order,
followed by a trailing "Validation failed for ..." summary message whenever
any check fired. -/
theorem validate_checks_characterized (fs : UVDataFileSet) :
    (Violation.noSupportedTypes ∈ validate fs
      ↔ supported_types.any (fun t => hasType fs t) = false)
  ∧ (Violation.fitsRequireMetafits ∈ validate fs
      ↔ hasType fs "fits" = true ∧ hasType fs "metafits" = false)
  ∧ (Violation.metafitsMissingForObsids ∈ validate fs
      ↔ hasType fs "fits" = true ∧ hasType fs "metafits" = true
        ∧ hasMetafitsForObsId (group_files_by_obsid_and_extension fs.files)
            = false)
  ∧ ((∃ tags, Violation.unsupportedTypes tags ∈ validate fs)
      ↔ unsupportedOf fs ≠ [])
  ∧ (Violation.uvfitsUvh5Conflict ∈ validate fs
      ↔ hasType fs "uvfits" = true ∧ hasType fs "uvh5" = true)
  ∧ (Violation.msConflict ∈ validate fs
      ↔ hasType fs "ms" = true
        ∧ (hasType fs "uvh5" = true ∨ hasType fs "uvfits" = true))
  ∧ (Violation.selSkipAntsConflict ∈ validate fs
      ↔ fs.sel_ants ≠ [] ∧ fs.skip_ants ≠ [])
  ∧ (validate fs = []
      ∨ validate fs
          = validateCore fs ++ [Violation.validationFailedFor fs.files]) := by
  refine ⟨?_, ?_, ?_, ?_, ?_, ?_, ?_, ?_⟩
  · rw [mem_validate_of_not_trailer (by simp)]
    simp only [validateCore, List.mem_append, mem_ite_singleton,
      mem_ite_singleton_inv, mem_ite_ite_singleton]
    simp [Bool.not_eq_true]
  · rw [mem_validate_of_not_trailer (by simp)]
    simp only [validateCore, List.mem_append, mem_ite_singleton,
      mem_ite_singleton_inv, mem_ite_ite_singleton]
    simp [Bool.not_eq_true']
  · rw [mem_validate_of_not_trailer (by simp)]
    simp only [validateCore, List.mem_append, mem_ite_singleton,
      mem_ite_singleton_inv, mem_ite_ite_singleton]
    cases hfits : hasType fs "fits" with
    | false => simp [obsidGroups, hfits]
    | true => simp [obsidGroups, hfits, Bool.not_eq_true']
  · constructor
    · rintro ⟨tags, hmem⟩
      rw [mem_validate_of_not_trailer (by simp)] at hmem
      simp only [validateCore, List.mem_append, mem_ite_singleton,
        mem_ite_singleton_inv, mem_ite_ite_singleton] at hmem
      simp at hmem
      exact hmem.1
    · intro h
      refine ⟨unsupportedOf fs, ?_⟩
      rw [mem_validate_of_not_trailer (by simp)]
      simp only [validateCore, List.mem_append, mem_ite_singleton,
        mem_ite_singleton_inv, mem_ite_ite_singleton]
      simp [h]
  · rw [mem_validate_of_not_trailer (by simp)]
    simp only [validateCore, List.mem_append, mem_ite_singleton,
      mem_ite_singleton_inv, mem_ite_ite_singleton]
    simp
  · rw [mem_validate_of_not_trailer (by simp)]
    simp only [validateCore, List.mem_append, mem_ite_singleton,
      mem_ite_singleton_inv, mem_ite_ite_singleton]
    simp
  · rw [mem_validate_of_not_trailer (by simp)]
    simp only [validateCore, List.mem_append, mem_ite_singleton,
      mem_ite_singleton_inv, mem_ite_ite_singleton]
    simp [List.isEmpty_iff]
  · unfold validate
    split
    · exact Or.inl rfl
    · exact Or.inr rfl

/-! ## Sorting and multiset lemmas for classification -/

theorem insertSorted_perm (f : String) (l : List String) :
    (insertSorted f l).Perm (f :: l) := by
  induction l with
  | nil => exact List.Perm.refl _
  | cons g gs ih =>
    unfold insertSorted
    split
    · exact List.Perm.refl _
    · exact (List.Perm.cons g ih).trans (List.Perm.swap f g gs)

theorem sortStr_perm (l : List String) : (sortStr l).Perm l := by
  induction l with
  | nil => exact List.Perm.refl _
  | cons f fs ih => exact (insertSorted_perm f (sortStr fs)).trans (ih.cons f)

theorem listLe_total (as : List Char) : ∀ bs,
    listLe as bs = true ∨ listLe bs as = true := by
  induction as with
  | nil => intro bs; exact Or.inl rfl
  | cons a as ih =>
    intro bs
    cases bs with
    | nil => exact Or.inr rfl
    | cons b bs =>
      cases hab : charLt a b with
      | true => exact Or.inl (by simp [listLe, hab])
      | false =>
        cases hba : charLt b a with
        | true => exact Or.inr (by simp [listLe, hba])
        | false =>
          rcases ih bs with h | h
          · exact Or.inl (by simp [listLe, hab, hba, h])
          · exact Or.inr (by simp [listLe, hab, hba, h])

theorem strLe_total (a b : String) : strLe a b = true ∨ strLe b a = true :=
  listLe_total a.data b.data

theorem insertSorted_cons (f g : String) (gs : List String) :
    insertSorted f (g :: gs)
      = if strLe f g = true then f :: g :: gs else g :: insertSorted f gs := rfl

theorem isSortedStr_cons_cons (a b : String) (l : List String) :
    isSortedStr (a :: b :: l) = (strLe a b && isSortedStr (b :: l)) := rfl

theorem isSortedStr_insertSorted (f : String) (l : List String)
    (h : isSortedStr l = true) : isSortedStr (insertSorted f l) = true := by
  induction l with
  | nil => rfl
  | cons g gs ih =>
    rw [insertSorted_cons]
    by_cases hfg : strLe f g = true
    · rw [if_pos hfg, isSortedStr_cons_cons, Bool.and_eq_true]
      exact ⟨hfg, h⟩
    · rw [if_neg hfg]
      have hgf : strLe g f = true := by
        rcases strLe_total f g with h1 | h1
        · exact absurd h1 hfg
        · exact h1
      cases gs with
      | nil =>
        simp [insertSorted, isSortedStr, hgf]
      | cons g₂ gs₂ =>
        rw [isSortedStr_cons_cons, Bool.and_eq_true] at h
        have ih₂ := ih h.2
        by_cases hfg₂ : strLe f g₂ = true
        · rw [insertSorted_cons, if_pos hfg₂, isSortedStr_cons_cons,
            isSortedStr_cons_cons, Bool.and_eq_true, Bool.and_eq_true]
          exact ⟨hgf, hfg₂, h.2⟩
        · rw [insertSorted_cons, if_neg hfg₂]
          rw [insertSorted_cons, if_neg hfg₂] at ih₂
          rw [isSortedStr_cons_cons, Bool.and_eq_true]
          exact ⟨h.1, ih₂⟩

theorem sortStr_sorted (l : List String) : isSortedStr (sortStr l) = true := by
  induction l with
  | nil => rfl
  | cons f fs ih => exact isSortedStr_insertSorted f _ ih

theorem addToGroup_tagged {d : List (String × List String)} {k v : String}
    (hk : pyExt v = k)
    (h : ∀ kv ∈ d, ∀ f ∈ kv.2, pyExt f = kv.1) :
    ∀ kv ∈ addToGroup d k v, ∀ f ∈ kv.2, pyExt f = kv.1 := by
  induction d with
  | nil =>
    intro kv hkv f hf
    simp [addToGroup] at hkv
    subst hkv
    simp at hf
    subst hf
    exact hk
  | cons kv₀ rest ih =>
    obtain ⟨k₁, vs⟩ := kv₀
    intro kv hkv f hf
    by_cases he : k₁ = k
    · rw [addToGroup, if_pos he] at hkv
      rcases List.mem_cons.mp hkv with h1 | h1
      · subst h1
        rcases List.mem_append.mp hf with h2 | h2
        · exact h (k₁, vs) (List.mem_cons_self _ _) f h2
        · rw [List.mem_singleton.mp h2, hk, he]
      · exact h kv (List.mem_cons_of_mem _ h1) f hf
    · rw [addToGroup, if_neg he] at hkv
      rcases List.mem_cons.mp hkv with h1 | h1
      · subst h1
        exact h (k₁, vs) (List.mem_cons_self _ _) f hf
      · exact ih (fun kv hkv => h kv (List.mem_cons_of_mem _ hkv)) kv h1 f hf

theorem groupFold_tagged (fl : List String) (d : List (String × List String))
    (h : ∀ kv ∈ d, ∀ f ∈ kv.2, pyExt f = kv.1) :
    ∀ kv ∈ fl.foldl (fun d f => addToGroup d (pyExt f) f) d,
      ∀ f ∈ kv.2, pyExt f = kv.1 := by
  induction fl generalizing d with
  | nil => exact h
  | cons f fs ih => exact ih _ (addToGroup_tagged rfl h)

theorem containsKey_cons {α : Type} (k₁ : String) (vs : α)
    (rest : List (String × α)) (k : String) :
    containsKey ((k₁, vs) :: rest) k
      = (decide (k₁ = k) || containsKey rest k) := rfl

theorem addToGroup_keys (d : List (String × List String)) (k v : String) :
    (addToGroup d k v).map Prod.fst
      = if containsKey d k = true then d.map Prod.fst
        else d.map Prod.fst ++ [k] := by
  induction d with
  | nil => simp [addToGroup, containsKey]
  | cons kv rest ih =>
    obtain ⟨k₁, vs⟩ := kv
    by_cases h : k₁ = k
    · subst h
      simp [addToGroup, containsKey_cons]
    · rw [addToGroup, if_neg h, List.map_cons, ih, containsKey_cons]
      have hd : decide (k₁ = k) = false := by simp [h]
      rw [hd, Bool.false_or]
      cases hc : containsKey rest k <;> simp [hc]

theorem groupFold_keys_nodup (fl : List String)
    (d : List (String × List String)) (h : (d.map Prod.fst).Nodup) :
    ((fl.foldl (fun d f => addToGroup d (pyExt f) f) d).map Prod.fst).Nodup := by
  induction fl generalizing d with
  | nil => exact h
  | cons f fs ih =>
    refine ih _ ?_
    rw [addToGroup_keys]
    split
    · exact h
    · rename_i hc
      rw [List.nodup_append]
      refine ⟨h, List.nodup_singleton _, ?_⟩
      intro a ha hb
      rw [List.mem_singleton.mp hb] at ha
      exact absurd ((containsKey_iff_mem_keys d (pyExt f)).mpr ha) (by simp_all)

theorem flatten_addToGroup (d : List (String × List String)) (k v : String) :
    ((addToGroup d k v).map Prod.snd).flatten.Perm
      ((d.map Prod.snd).flatten ++ [v]) := by
  induction d with
  | nil => simp [addToGroup]
  | cons kv rest ih =>
    obtain ⟨k₁, vs⟩ := kv
    by_cases h : k₁ = k
    · rw [addToGroup, if_pos h]
      simp only [List.map_cons, List.flatten_cons]
      have h1 : (vs ++ [v]) ++ (rest.map Prod.snd).flatten
          = vs ++ ([v] ++ (rest.map Prod.snd).flatten) := by
        rw [List.append_assoc]
      rw [h1]
      have h2 := (@List.perm_append_comm _ [v]
        ((rest.map Prod.snd).flatten)).append_left vs
      refine h2.trans ?_
      rw [← List.append_assoc]
    · rw [addToGroup, if_neg h]
      simp only [List.map_cons, List.flatten_cons]
      have h2 := ih.append_left vs
      rw [← List.append_assoc] at h2
      exact h2

theorem flatten_groupFold (fl : List String)
    (d : List (String × List String)) :
    (((fl.foldl (fun d f => addToGroup d (pyExt f) f) d)).map Prod.snd).flatten.Perm
      ((d.map Prod.snd).flatten ++ fl) := by
  induction fl generalizing d with
  | nil => simp
  | cons f fs ih =>
    rw [List.foldl_cons]
    refine (ih _).trans ?_
    have h2 := (flatten_addToGroup d (pyExt f) f).append_right fs
    rw [List.append_assoc] at h2
    simpa using h2

theorem flatten_mapSort (G : List (String × List String)) :
    (((G.map (fun kv => (kv.1, sortStr kv.2)))).map Prod.snd).flatten.Perm
      ((G.map Prod.snd).flatten) := by
  induction G with
  | nil => exact List.Perm.refl _
  | cons kv rest ih =>
    simp only [List.map_cons, List.flatten_cons]
    exact (sortStr_perm kv.2).append ih

/-- C6 (amended): classification assigns each input path to exactly one bucket
keyed by its extension tag (establishment: every bucket member's extension is
the bucket key, and bucket keys are distinct, so no path can sit in two
buckets); the concatenation of all buckets is a permutation of the input list
— so duplicates are preserved once per occurrence, not deduplicated — and
every bucket is sorted. -/
theorem group_files_by_extension_spec (fl : List String) :
    (∀ kv ∈ group_files_by_extension fl, ∀ f ∈ kv.2, pyExt f = kv.1)
    ∧ ((group_files_by_extension fl).map Prod.fst).Nodup
    ∧ ((group_files_by_extension fl).map Prod.snd).flatten.Perm fl
    ∧ (∀ kv ∈ group_files_by_extension fl, isSortedStr kv.2 = true) := by
  refine ⟨?_, ?_, ?_, ?_⟩
  · intro kv hkv f hf
    unfold group_files_by_extension at hkv
    rcases List.mem_map.mp hkv with ⟨kv₀, hkv₀, rfl⟩
    exact groupFold_tagged fl [] (by simp) kv₀ hkv₀ f
      ((sortStr_perm kv₀.2).mem_iff.mp hf)
  · have heq : (group_files_by_extension fl).map Prod.fst
        = ((fl.foldl (fun d f => addToGroup d (pyExt f) f) [])).map Prod.fst := by
      unfold group_files_by_extension
      rw [List.map_map]
      rfl
    rw [heq]
    exact groupFold_keys_nodup fl [] (by simp)
  · unfold group_files_by_extension
    refine (flatten_mapSort _).trans ?_
    simpa using flatten_groupFold fl []
  · intro kv hkv
    unfold group_files_by_extension at hkv
    rcases List.mem_map.mp hkv with ⟨kv₀, _, rfl⟩
    exact sortStr_sorted kv₀.2

/-- C6 witness: the amended properties instantiated on a concrete unsorted
input with two extensions. -/
theorem group_files_by_extension_spec_witness :
    pyExt "a.fits" = "fits"
    ∧ ((group_files_by_extension ["b.fits", "a.fits", "c.ms"]).map
        Prod.snd).flatten.Perm ["b.fits", "a.fits", "c.ms"]
    ∧ isSortedStr ["a.fits", "b.fits"] = true := by
  have h := group_files_by_extension_spec ["b.fits", "a.fits", "c.ms"]
  refine ⟨?_, h.2.2.1, ?_⟩
  · exact h.1 ("fits", ["a.fits", "b.fits"]) (by decide) "a.fits" (by decide)
  · exact h.2.2.2 ("fits", ["a.fits", "b.fits"]) (by decide)

end MWA
